import Mathlib

/-!
Verification of the SQL escaping and query-building core of the
`clickhouse-rs` repository (files `src/sql/mod.rs` and
`src/sql/query_builder.rs`), shallowly embedded over `List Char`
as the text type.
-/

namespace ClickhouseSql

/-- Rust `str::split(ch)` semantics on character lists: splitting a string
on a character yields the (possibly empty) segments between occurrences;
`n` occurrences yield `n + 1` segments, and the empty string yields one
empty segment. -/
def splitOnChar (sep : Char) : List Char → List (List Char)
  | [] => [[]]
  | c :: cs =>
    if c = sep then [] :: splitOnChar sep cs
    else
      match splitOnChar sep cs with
      | [] => [[c]]
      | p :: ps => (c :: p) :: ps

/-- The `for (idx, part) in parts.enumerate()` writing loop of `escape` in
`src/sql/mod.rs`: before every part except the first (`idx > 0`) the
separator text is emitted, then the part itself. The `first` flag is
`true` exactly when no part has been written yet. -/
def joinParts (sep : List Char) : Bool → List (List Char) → List Char
  | _, [] => []
  | first, p :: ps =>
    (if first then [] else sep) ++ p ++ joinParts sep false ps

/-- Function `escape` from `src/sql/mod.rs` lines 17-37: emit the quote character,
split the source on the quote character, join the segments with `\` + quote;
inside each segment split on backslash and join with `\\`; finally emit the
closing quote character. -/
def escape (src : List Char) (ch : Char) : List Char :=
  [ch]
    ++ joinParts ['\\', ch] true
        ((splitOnChar ch src).map fun part =>
          joinParts ['\\', '\\'] true (splitOnChar '\\' part))
    ++ [ch]

/-- Function `string` from `src/sql/mod.rs`: escape as a string literal, quoted
with a single quote. -/
def string (src : List Char) : List Char :=
  escape src '\''

/-- Function `identifier` from `src/sql/mod.rs`: escape as an identifier, quoted
with a backtick. -/
def identifier (src : List Char) : List Char :=
  escape src '`'

/-- Function `escape_string` from `src/sql/query_builder.rs` lines 196-206: the
per-character escaper, `'` becomes `\'`, `\` becomes `\\`, every other
character is pushed unchanged. -/
def escape_string : List Char → List Char
  | [] => []
  | c :: cs =>
    (if c = '\'' then ['\\', '\'']
     else if c = '\\' then ['\\', '\\']
     else [c]) ++ escape_string cs

/-- The `SqlLiteral` implementations of `src/sql/query_builder.rs` that the
claims concern, as one inductive family of literal values: text strings,
(decimal-printed) integers, and ordered sequences of literals. -/
inductive SqlLiteral where
  | str : List Char → SqlLiteral
  | int : Int → SqlLiteral
  | vec : List SqlLiteral → SqlLiteral

mutual

/-- Rendering `SqlLiteral::fmt`: the `&str`/`String` impl writes `'` ++
`escape_string(s)` ++ `'`; the integer impls defer to decimal `Display`;
the `Vec<T>` impl writes `[`, the comma-space-separated elements, then
`]`. -/
def SqlLiteral.fmt : SqlLiteral → List Char
  | .str s => '\'' :: (escape_string s ++ ['\''])
  | .int n => (toString n).data
  | .vec xs => '[' :: (SqlLiteral.fmtElems false xs ++ [']'])

/-- The element loop of the `Vec<T>` impl (`src/sql/query_builder.rs`
lines 125-143): a `push_separator` flag starts `false`; before each element
with the flag set, `", "` is written; the flag is set after the first
element. -/
def SqlLiteral.fmtElems : Bool → List SqlLiteral → List Char
  | _, [] => []
  | pushSep, v :: rest =>
    (if pushSep then [',', ' '] else []) ++ SqlLiteral.fmt v
      ++ SqlLiteral.fmtElems true rest

end

/-- Structure `QueryBuilder` from `src/sql/query_builder.rs`: one owned growable
text buffer. -/
structure QueryBuilder where
  query : List Char

namespace QueryBuilder

/-- Constructor `QueryBuilder::new`: the buffer starts as the caller-supplied seed. -/
def new (init : List Char) : QueryBuilder :=
  ⟨init⟩

/-- Method `QueryBuilder::build`: consumes the builder, returning the buffer. -/
def build (qb : QueryBuilder) : List Char :=
  qb.query

/-- Method `QueryBuilder::push`: `write!(self.query, "{}", sql)` appends the
displayed text of the fragment to the buffer. The fragment is modelled
by its displayed text. -/
def push (qb : QueryBuilder) (sql : List Char) : QueryBuilder :=
  ⟨qb.query ++ sql⟩

/-- Method `QueryBuilder::push_bind`: renders the value through its
`SqlLiteral::fmt` and appends the result. -/
def push_bind (qb : QueryBuilder) (value : SqlLiteral) : QueryBuilder :=
  ⟨qb.query ++ SqlLiteral.fmt value⟩

end QueryBuilder

/-- Structure `Separated` from `src/sql/query_builder.rs`: a separator value, a
`push_separator` flag, and the underlying builder (the exclusive borrow
is modelled by the view owning the builder state for its lifetime). -/
structure Separated where
  push_separator : Bool
  separator : List Char
  qb : QueryBuilder

namespace Separated

/-- Constructor `Separated::new` (reached via `QueryBuilder::separated`): flag starts
`false`. -/
def new (qb : QueryBuilder) (sep : List Char) : Separated :=
  ⟨false, sep, qb⟩

/-- Method `Separated::push_unseparated`: appends via the builder's `push`,
touching nothing else. -/
def push_unseparated (s : Separated) (sql : List Char) : Separated :=
  { s with qb := s.qb.push sql }

/-- Method `Separated::push`: with the flag set, pushes
`format_args!("{}{}", separator, sql)`; otherwise pushes `sql` and sets
the flag. -/
def push (s : Separated) (sql : List Char) : Separated :=
  if s.push_separator then
    { s with qb := s.qb.push (s.separator ++ sql) }
  else
    { s with qb := s.qb.push sql, push_separator := true }

/-- Method `Separated::push_bind`: with the flag set, first pushes the separator;
then `push_bind`s the value and sets the flag. -/
def push_bind (s : Separated) (value : SqlLiteral) : Separated :=
  let s1 := if s.push_separator then { s with qb := s.qb.push s.separator } else s
  { s1 with qb := s1.qb.push_bind value, push_separator := true }

end Separated

/-- One item pushed through a `Separated` view: either a raw displayed
fragment (`push`) or a literal value (`push_bind`). -/
inductive SepItem where
  | raw : List Char → SepItem
  | bind : SqlLiteral → SepItem

/-- The text an item contributes: the fragment itself, or the rendered
literal. -/
def SepItem.text : SepItem → List Char
  | .raw f => f
  | .bind v => SqlLiteral.fmt v

/-- Dispatch one item to `Separated::push` or `Separated::push_bind`. -/
def Separated.pushItem (s : Separated) : SepItem → Separated
  | .raw f => s.push f
  | .bind v => s.push_bind v

/-- A sequence of `push`/`push_bind` calls on a `Separated` view, in call
order. -/
def Separated.pushItems (s : Separated) : List SepItem → Separated
  | [] => s
  | i :: is => (s.pushItem i).pushItems is

/-- One operation on a `QueryBuilder`: `push` of a displayed fragment or
`push_bind` of a literal value. -/
inductive QBOp where
  | push : List Char → QBOp
  | push_bind : SqlLiteral → QBOp

/-- Apply one builder operation. -/
def QBOp.apply (qb : QueryBuilder) : QBOp → QueryBuilder
  | .push s => qb.push s
  | .push_bind v => qb.push_bind v

/-- The text one builder operation appends. -/
def QBOp.text : QBOp → List Char
  | .push s => s
  | .push_bind v => SqlLiteral.fmt v

/-- Run a sequence of builder operations in call order. -/
def runOps (qb : QueryBuilder) : List QBOp → QueryBuilder
  | [] => qb
  | op :: ops => runOps (op.apply qb) ops

/-- Concatenation of the texts appended by a sequence of operations, in
order. -/
def opsText : List QBOp → List Char
  | [] => []
  | op :: ops => op.text ++ opsText ops

/-! ### The escaper against a fallible sink

`escape` in the source is generic over `dst: impl fmt::Write`, whose
`write_char`/`write_str` return `fmt::Result`; each write is followed by
`?`, so a failure is returned immediately. A sink is a state type with
two fallible write operations (`none` models `fmt::Error`). -/

structure Sink (σ : Type) where
  write_char : σ → Char → Option σ
  write_str : σ → List Char → Option σ

/-- The inner loop of `escape` against a sink: before every part except
the first, `write_str("\\\\")`; then `write_str(part)`; each `?` failure
short-circuits. -/
def writeBackslashParts {σ : Type} (W : Sink σ) :
    Bool → List (List Char) → σ → Option σ
  | _, [], st => some st
  | first, p :: ps, st =>
    (if first then some st else W.write_str st ['\\', '\\']).bind fun st1 =>
      (W.write_str st1 p).bind fun st2 =>
        writeBackslashParts W false ps st2

/-- The outer loop of `escape` against a sink: before every part except
the first, `write_char('\\')` then `write_char(ch)`; then the inner loop
on the part split on backslash. -/
def writeQuoteParts {σ : Type} (W : Sink σ) (ch : Char) :
    Bool → List (List Char) → σ → Option σ
  | _, [], st => some st
  | first, p :: ps, st =>
    (if first then some st
     else (W.write_char st '\\').bind fun st1 => W.write_char st1 ch).bind
      fun st1 =>
        (writeBackslashParts W true (splitOnChar '\\' p) st1).bind fun st2 =>
          writeQuoteParts W ch false ps st2

/-- Function `escape` from `src/sql/mod.rs` against a fallible sink: opening quote
character, the two nested split loops, closing quote character, each
write followed by `?`. -/
def escapeSink {σ : Type} (W : Sink σ) (src : List Char) (ch : Char)
    (st : σ) : Option σ :=
  (W.write_char st ch).bind fun st1 =>
    (writeQuoteParts W ch true (splitOnChar ch src) st1).bind fun st2 =>
      W.write_char st2 ch

/-- The infallible in-memory sink (a `String` destination in the source):
every write appends and succeeds. -/
def listSink : Sink (List Char) where
  write_char st c := some (st ++ [c])
  write_str st l := some (st ++ l)

@[simp] theorem listSink_write_char (st : List Char) (c : Char) :
    listSink.write_char st c = some (st ++ [c]) := rfl

@[simp] theorem listSink_write_str (st l : List Char) :
    listSink.write_str st l = some (st ++ l) := rfl

/-! ### Spec-side characterizations -/

/-- Apply a character substitution to each character in order and
concatenate the results. -/
def charMap (f : Char → List Char) : List Char → List Char
  | [] => []
  | c :: cs => f c ++ charMap f cs

/-- The substitution performed inside a quote-free segment: every
backslash becomes two backslashes, every other character is kept. -/
def escapeBackslash (c : Char) : List Char :=
  if c = '\\' then ['\\', '\\'] else [c]

/-- The per-character substitution of escaping with quote character `q`:
a quote becomes `\` + quote, a backslash becomes two backslashes, every
other character is kept. -/
def escapeChar (q : Char) (c : Char) : List Char :=
  if c = q then ['\\', q]
  else if c = '\\' then ['\\', '\\']
  else [c]

/-- The single-quote substitution exactly as the spec words it: every
backslash character is replaced by `\\`, every single-quote character by
`\'`, every other character is passed through unchanged. -/
def escapeCharSpec (c : Char) : List Char :=
  if c = '\\' then ['\\', '\\']
  else if c = '\'' then ['\\', '\'']
  else [c]

/-- Modelled from the spec: the `unescape` of the round-trip law is not
part of the source; following the spec's words it reverses
backslash-escaping — a `\` followed by any character decodes to that
character; any other character decodes to itself. -/
def unescapeBody : List Char → List Char
  | [] => []
  | [c] => [c]
  | c :: d :: rest =>
    if c = '\\' then d :: unescapeBody rest
    else c :: unescapeBody (d :: rest)

/-- Modelled from the spec: `unescape` strips the surrounding quote
characters and reverses the escaping of the body. -/
def unescape (l : List Char) : List Char :=
  unescapeBody ((l.drop 1).dropLast)

/-- Texts joined by a separator: the separator appears between
consecutive items and nowhere else. -/
def joinedBy (sep : List Char) : List (List Char) → List Char
  | [] => []
  | [x] => x
  | x :: xs => x ++ sep ++ joinedBy sep xs

/-- The text contributed by the items after the first of a separated
sequence: each is preceded by the separator. -/
def sepConcat (sep : List Char) : List SepItem → List Char
  | [] => []
  | i :: is => sep ++ i.text ++ sepConcat sep is

/-! ### Lemmas on the split-based escaper -/

theorem splitOnChar_ne_nil (sep : Char) (s : List Char) :
    splitOnChar sep s ≠ [] := by
  cases s with
  | nil => simp [splitOnChar]
  | cons c cs =>
    simp only [splitOnChar]
    split
    · simp
    · split <;> simp_all

theorem joinParts_false_of_ne_nil (sep : List Char) (l : List (List Char))
    (h : l ≠ []) : joinParts sep false l = sep ++ joinParts sep true l := by
  cases l with
  | nil => exact absurd rfl h
  | cons p ps => simp [joinParts]

theorem joinParts_split_backslash (p : List Char) :
    joinParts ['\\', '\\'] true (splitOnChar '\\' p)
      = charMap escapeBackslash p := by
  induction p with
  | nil => simp [splitOnChar, joinParts, charMap]
  | cons c cs ih =>
    by_cases hc : c = '\\'
    · subst hc
      rw [show splitOnChar '\\' ('\\' :: cs) = [] :: splitOnChar '\\' cs by
        simp [splitOnChar]]
      rw [joinParts, joinParts_false_of_ne_nil _ _ (splitOnChar_ne_nil _ _), ih]
      simp [charMap, escapeBackslash]
    · obtain ⟨q, qs, hsplit⟩ :=
        List.exists_cons_of_ne_nil (splitOnChar_ne_nil '\\' cs)
      rw [show splitOnChar '\\' (c :: cs) = (c :: q) :: qs by
        simp [splitOnChar, hc, hsplit]]
      rw [hsplit] at ih
      simp only [joinParts, charMap, escapeBackslash, if_neg hc] at ih ⊢
      simp [← ih]

theorem joinParts_split_quote (q : Char) (s : List Char) :
    joinParts ['\\', q] true
      ((splitOnChar q s).map fun part =>
        joinParts ['\\', '\\'] true (splitOnChar '\\' part))
      = charMap (escapeChar q) s := by
  induction s with
  | nil => simp [splitOnChar, joinParts, charMap]
  | cons c cs ih =>
    by_cases hc : c = q
    · subst hc
      rw [show splitOnChar c (c :: cs) = [] :: splitOnChar c cs by
        simp [splitOnChar]]
      rw [List.map_cons, joinParts,
        joinParts_false_of_ne_nil _ _
          (by simpa using splitOnChar_ne_nil c cs), ih]
      simp [charMap, escapeChar, splitOnChar, joinParts]
    · obtain ⟨p, ps, hsplit⟩ :=
        List.exists_cons_of_ne_nil (splitOnChar_ne_nil q cs)
      rw [show splitOnChar q (c :: cs) = (c :: p) :: ps by
        simp [splitOnChar, hc, hsplit]]
      rw [hsplit] at ih
      simp only [List.map_cons, joinParts, joinParts_split_backslash, charMap,
        reduceIte, List.nil_append, List.append_assoc] at ih ⊢
      rw [ih]
      simp [escapeChar, escapeBackslash, hc]

/-- The split-based escaper equals per-character substitution, wrapped in
the quote character. -/
theorem escape_eq_charMap (s : List Char) (q : Char) :
    escape s q = q :: (charMap (escapeChar q) s ++ [q]) := by
  simp [escape, joinParts_split_quote]

/-- The per-character escaper of `query_builder.rs` computes the same
substitution. -/
theorem escape_string_eq_charMap (s : List Char) :
    escape_string s = charMap (escapeChar '\'') s := by
  induction s with
  | nil => rfl
  | cons c cs ih =>
    by_cases h1 : c = '\''
    · subst h1; simp [escape_string, charMap, escapeChar, ih]
    · by_cases h2 : c = '\\'
      · subst h2; simp [escape_string, charMap, escapeChar, ih]
      · simp [escape_string, charMap, escapeChar, h1, h2, ih]

/-! ### Further helper lemmas -/

theorem escapeChar_quote_eq_spec : escapeChar '\'' = escapeCharSpec := by
  funext c
  by_cases h1 : c = '\''
  · subst h1; simp [escapeChar, escapeCharSpec]
  · by_cases h2 : c = '\\' <;> simp [escapeChar, escapeCharSpec, h1, h2]

theorem unescapeBody_backslash_cons (d : Char) (l : List Char) :
    unescapeBody ('\\' :: d :: l) = d :: unescapeBody l := by
  simp [unescapeBody]

theorem unescapeBody_cons_of_ne (c : Char) (l : List Char) (h : ¬c = '\\') :
    unescapeBody (c :: l) = c :: unescapeBody l := by
  cases l with
  | nil => simp [unescapeBody]
  | cons d rest => simp [unescapeBody, h]

theorem unescapeBody_charMap (q : Char) (s : List Char) :
    unescapeBody (charMap (escapeChar q) s) = s := by
  induction s with
  | nil => rfl
  | cons c cs ih =>
    by_cases h1 : c = q
    · subst h1
      simp [charMap, escapeChar, unescapeBody_backslash_cons, ih]
    · by_cases h2 : c = '\\'
      · subst h2
        simp [charMap, escapeChar, h1, unescapeBody_backslash_cons, ih]
      · simp [charMap, escapeChar, h1, h2, unescapeBody_cons_of_ne, ih,
          unescapeBody_cons_of_ne c _ h2]

theorem charMap_id_of_no_special (q : Char) (s : List Char)
    (hq : q ∉ s) (hb : '\\' ∉ s) : charMap (escapeChar q) s = s := by
  induction s with
  | nil => rfl
  | cons c cs ih =>
    simp only [List.mem_cons, not_or] at hq hb
    simp only [charMap, ih hq.2 hb.2]
    simp [escapeChar, Ne.symm hq.1, Ne.symm hb.1]

theorem fmtElems_true_cons (v : SqlLiteral) (rest : List SqlLiteral) :
    SqlLiteral.fmtElems true (v :: rest)
      = [',', ' '] ++ SqlLiteral.fmtElems false (v :: rest) := by
  simp [SqlLiteral.fmtElems]

theorem fmtElems_false_eq (xs : List SqlLiteral) :
    SqlLiteral.fmtElems false xs
      = joinedBy [',', ' '] (xs.map SqlLiteral.fmt) := by
  induction xs with
  | nil => simp [SqlLiteral.fmtElems, joinedBy]
  | cons v rest ih =>
    cases rest with
    | nil => simp [SqlLiteral.fmtElems, joinedBy]
    | cons w ws =>
      rw [show SqlLiteral.fmtElems false (v :: w :: ws)
            = SqlLiteral.fmt v ++ SqlLiteral.fmtElems true (w :: ws) by
          simp [SqlLiteral.fmtElems]]
      rw [fmtElems_true_cons, ih]
      simp [joinedBy]

theorem fmt_vec_joinedBy (xs : List SqlLiteral) :
    SqlLiteral.fmt (.vec xs)
      = '[' :: (joinedBy [',', ' '] (xs.map SqlLiteral.fmt) ++ [']']) := by
  rw [show SqlLiteral.fmt (.vec xs)
        = '[' :: (SqlLiteral.fmtElems false xs ++ [']']) by
      simp [SqlLiteral.fmt]]
  rw [fmtElems_false_eq]

theorem pushItem_true (sep : List Char) (qb : QueryBuilder) (i : SepItem) :
    Separated.pushItem ⟨true, sep, qb⟩ i
      = ⟨true, sep, ⟨qb.query ++ (sep ++ i.text)⟩⟩ := by
  cases i <;>
    simp [Separated.pushItem, Separated.push, Separated.push_bind,
      QueryBuilder.push, QueryBuilder.push_bind, SepItem.text]

theorem pushItem_false (sep : List Char) (qb : QueryBuilder) (i : SepItem) :
    Separated.pushItem ⟨false, sep, qb⟩ i = ⟨true, sep, ⟨qb.query ++ i.text⟩⟩ := by
  cases i <;>
    simp [Separated.pushItem, Separated.push, Separated.push_bind,
      QueryBuilder.push, QueryBuilder.push_bind, SepItem.text]

theorem pushItems_true_query (sep : List Char) (is : List SepItem) :
    ∀ qb : QueryBuilder,
      (Separated.pushItems ⟨true, sep, qb⟩ is).qb.query
        = qb.query ++ sepConcat sep is := by
  induction is with
  | nil => intro qb; simp [Separated.pushItems, sepConcat]
  | cons i is ih =>
    intro qb
    rw [show Separated.pushItems ⟨true, sep, qb⟩ (i :: is)
          = Separated.pushItems (Separated.pushItem ⟨true, sep, qb⟩ i) is
        from rfl]
    rw [pushItem_true, ih, sepConcat]
    simp

theorem runOps_build (ops : List QBOp) : ∀ qb : QueryBuilder,
    (runOps qb ops).build = qb.query ++ opsText ops := by
  induction ops with
  | nil => intro qb; simp [runOps, QueryBuilder.build, opsText]
  | cons op ops ih =>
    intro qb
    rw [show runOps qb (op :: ops) = runOps (op.apply qb) ops from rfl, ih]
    cases op <;>
      simp [QBOp.apply, QBOp.text, opsText,
        QueryBuilder.push, QueryBuilder.push_bind]

/-! ### Lemmas on the sink-level escaper -/

theorem bind_isSome {α β : Type} {o : Option α} {f : α → Option β}
    (ho : o.isSome) (hf : ∀ a, (f a).isSome) : (o.bind f).isSome := by
  cases o with
  | none => simp at ho
  | some a => exact hf a

theorem writeBackslashParts_isSome {σ : Type} (W : Sink σ)
    (hstr : ∀ st l, (W.write_str st l).isSome) :
    ∀ (ps : List (List Char)) (first : Bool) (st : σ),
      (writeBackslashParts W first ps st).isSome := by
  intro ps
  induction ps with
  | nil => intro first st; simp [writeBackslashParts]
  | cons p ps ih =>
    intro first st
    simp only [writeBackslashParts]
    apply bind_isSome
    · cases first <;> simp [hstr]
    · intro st1
      exact bind_isSome (hstr st1 p) fun st2 => ih false st2

theorem writeQuoteParts_isSome {σ : Type} (W : Sink σ) (ch : Char)
    (hchar : ∀ st c, (W.write_char st c).isSome)
    (hstr : ∀ st l, (W.write_str st l).isSome) :
    ∀ (ps : List (List Char)) (first : Bool) (st : σ),
      (writeQuoteParts W ch first ps st).isSome := by
  intro ps
  induction ps with
  | nil => intro first st; simp [writeQuoteParts]
  | cons p ps ih =>
    intro first st
    simp only [writeQuoteParts]
    apply bind_isSome
    · cases first with
      | false => exact bind_isSome (hchar st '\\') fun st1 => hchar st1 ch
      | true => simp
    · intro st1
      exact bind_isSome (writeBackslashParts_isSome W hstr _ _ _)
        fun st2 => ih false st2

theorem escapeSink_isSome {σ : Type} (W : Sink σ)
    (hchar : ∀ st c, (W.write_char st c).isSome)
    (hstr : ∀ st l, (W.write_str st l).isSome)
    (src : List Char) (ch : Char) (st : σ) :
    (escapeSink W src ch st).isSome :=
  bind_isSome (hchar st ch) fun st1 =>
    bind_isSome (writeQuoteParts_isSome W ch hchar hstr _ _ st1)
      fun st2 => hchar st2 ch

theorem writeBackslashParts_listSink (ps : List (List Char)) :
    ∀ (first : Bool) (st : List Char),
      writeBackslashParts listSink first ps st
        = some (st ++ joinParts ['\\', '\\'] first ps) := by
  induction ps with
  | nil => intro first st; simp [writeBackslashParts, joinParts]
  | cons p ps ih =>
    intro first st
    cases first <;>
      simp [writeBackslashParts, joinParts, ih, Option.bind]

theorem writeQuoteParts_listSink (ch : Char) (ps : List (List Char)) :
    ∀ (first : Bool) (st : List Char),
      writeQuoteParts listSink ch first ps st
        = some (st ++ joinParts ['\\', ch] first
            (ps.map fun part =>
              joinParts ['\\', '\\'] true (splitOnChar '\\' part))) := by
  induction ps with
  | nil => intro first st; simp [writeQuoteParts, joinParts]
  | cons p ps ih =>
    intro first st
    cases first <;>
      simp [writeQuoteParts, joinParts, ih,
        writeBackslashParts_listSink, Option.bind]

theorem escapeSink_listSink (src : List Char) (ch : Char) (st : List Char) :
    escapeSink listSink src ch st = some (st ++ escape src ch) := by
  simp [escapeSink, writeQuoteParts_listSink, escape, Option.bind]

/-! ### Claim theorems -/

/-- C1: for every input `s`, string-literal escaping produces the input
wrapped in single quotes where every backslash of `s` becomes `\\`, every
single quote becomes `\'`, and every other character (newlines included)
is passed through unchanged and in order — for the split-based escaper
and for the per-character escaper used by the `&str` literal impl. -/
theorem C1_string_literal_escaping (s : List Char) :
    string s = '\'' :: (charMap escapeCharSpec s ++ ['\'']) ∧
    SqlLiteral.fmt (.str s) = '\'' :: (charMap escapeCharSpec s ++ ['\'']) := by
  constructor
  · rw [string, escape_eq_charMap, escapeChar_quote_eq_spec]
  · rw [show SqlLiteral.fmt (.str s) = '\'' :: (escape_string s ++ ['\'']) by
      simp [SqlLiteral.fmt]]
    rw [escape_string_eq_charMap, escapeChar_quote_eq_spec]

/-- C2: unescaping (stripping the surrounding quotes and reversing the
backslash-escaping) the output of string-literal escaping yields the
input back, for every input. -/
theorem C2_roundtrip (s : List Char) : unescape (string s) = s := by
  rw [string, escape_eq_charMap, unescape]
  simp only [List.drop_succ_cons, List.drop_zero]
  rw [List.dropLast_concat]
  exact unescapeBody_charMap '\'' s

/-- C3: on a fresh `Separated` view, a sequence of `push`/`push_bind`
calls appends the first item's text and then, for every later item, the
separator followed by that item's text; in particular three pushes of
`"a"`, `"b"`, `"c"` with separator `", "` append exactly `"a, b, c"`,
and a single push appends only its item. -/
theorem C3_separated_push_sequence :
    (∀ (sep : List Char) (qb : QueryBuilder) (i : SepItem) (is : List SepItem),
      ((Separated.new qb sep).pushItems (i :: is)).qb.query
        = qb.query ++ i.text ++ sepConcat sep is) ∧
    ((Separated.new (QueryBuilder.new []) [',', ' ']).pushItems
        [.raw ['a'], .raw ['b'], .raw ['c']]).qb.query = "a, b, c".data ∧
    (∀ (sep : List Char) (qb : QueryBuilder) (i : SepItem),
      ((Separated.new qb sep).pushItem i).qb.query = qb.query ++ i.text) := by
  refine ⟨?_, ?_, ?_⟩
  · intro sep qb i is
    have h1 : (Separated.new qb sep).pushItem i
        = ⟨true, sep, ⟨qb.query ++ i.text⟩⟩ := pushItem_false sep qb i
    rw [show (Separated.new qb sep).pushItems (i :: is)
          = ((Separated.new qb sep).pushItem i).pushItems is from rfl, h1,
      pushItems_true_query]
  · decide
  · intro sep qb i
    rw [show Separated.new qb sep = ⟨false, sep, qb⟩ from rfl, pushItem_false]

/-- C4: the builder's buffer is append-only — the buffer before any
`push`/`push_bind` is a prefix of the buffer after it — and `build`
returns exactly the seed followed by the texts appended by each
operation in call order. -/
theorem C4_append_only_build :
    (∀ (qb : QueryBuilder) (op : QBOp), qb.query <+: (op.apply qb).query) ∧
    (∀ (init : List Char) (ops : List QBOp),
      (runOps (QueryBuilder.new init) ops).build = init ++ opsText ops) := by
  constructor
  · intro qb op
    cases op <;> exact ⟨_, rfl⟩
  · intro init ops
    rw [runOps_build]
    rfl

/-- C5: the two escaping implementations agree — the split-based escaper
writes a single quote, the output of the per-character `escape_string`,
and a single quote. -/
theorem C5_escapers_agree (s : List Char) :
    string s = '\'' :: (escape_string s ++ ['\'']) := by
  rw [string, escape_eq_charMap, escape_string_eq_charMap]

/-- C6: an ordered sequence of literals renders as `[`, the recursively
rendered elements joined by `", "`, and `]`; the empty sequence renders
as `[]` and `[1, 2, 3]` renders as `"[1, 2, 3]"`. -/
theorem C6_vec_rendering :
    (∀ xs : List SqlLiteral,
      SqlLiteral.fmt (.vec xs)
        = '[' :: (joinedBy [',', ' '] (xs.map SqlLiteral.fmt) ++ [']'])) ∧
    SqlLiteral.fmt (.vec []) = "[]".data ∧
    SqlLiteral.fmt (.vec [.int 1, .int 2, .int 3]) = "[1, 2, 3]".data := by
  refine ⟨fmt_vec_joinedBy, ?_, ?_⟩
  · rw [fmt_vec_joinedBy]
    decide
  · rw [fmt_vec_joinedBy]
    simp only [List.map_cons, List.map_nil, SqlLiteral.fmt]
    decide

/-- C7: for every input, `string` starts and ends with a single quote and
`identifier` starts and ends with a backtick. -/
theorem C7_quote_delimiters (s : List Char) :
    (string s).head? = some '\'' ∧ (string s).getLast? = some '\'' ∧
    (identifier s).head? = some '`' ∧ (identifier s).getLast? = some '`' := by
  refine ⟨?_, ?_, ?_, ?_⟩
  · rw [string, escape_eq_charMap]; rfl
  · rw [string, escape_eq_charMap, ← List.cons_append]
    exact List.getLast?_concat _
  · rw [identifier, escape_eq_charMap]; rfl
  · rw [identifier, escape_eq_charMap, ← List.cons_append]
    exact List.getLast?_concat _

/-- C8: on an input containing neither a single quote nor a backslash,
string-literal escaping is the identity on the content: the result is a
quote, the input unchanged, and a quote. -/
theorem C8_no_special_identity (s : List Char)
    (hq : '\'' ∉ s) (hb : '\\' ∉ s) :
    string s = '\'' :: (s ++ ['\'']) := by
  rw [string, escape_eq_charMap, charMap_id_of_no_special '\'' s hq hb]

/-- Witness for C8 at the concrete input `abc`. -/
theorem C8_no_special_identity_witness :
    ('\'' ∉ ['a', 'b', 'c'] ∧ '\\' ∉ ['a', 'b', 'c']) ∧
    string ['a', 'b', 'c'] = '\'' :: (['a', 'b', 'c'] ++ ['\'']) :=
  ⟨⟨by decide, by decide⟩,
    C8_no_special_identity ['a', 'b', 'c'] (by decide) (by decide)⟩

/-- C9: escaping never fails on its own for any input text: against a
sink whose writes always succeed the result is always a success; against
the in-memory sink it succeeds with exactly the escaped output; and a
sink write failure propagates immediately (a failure of the very first
write makes the whole escaping fail). -/
theorem C9_fail_only_on_sink_failure :
    (∀ (σ : Type) (W : Sink σ) (src : List Char) (ch : Char) (st : σ),
      (∀ st c, (W.write_char st c).isSome) →
      (∀ st l, (W.write_str st l).isSome) →
      (escapeSink W src ch st).isSome) ∧
    (∀ (src : List Char) (ch : Char) (st : List Char),
      escapeSink listSink src ch st = some (st ++ escape src ch)) ∧
    (∀ (σ : Type) (W : Sink σ) (src : List Char) (ch : Char) (st : σ),
      W.write_char st ch = none → escapeSink W src ch st = none) := by
  refine ⟨?_, escapeSink_listSink, ?_⟩
  · intro σ W src ch st hchar hstr
    exact escapeSink_isSome W hchar hstr src ch st
  · intro σ W src ch st hfail
    simp [escapeSink, hfail, Option.bind]

/-- Witness for C9 at a concrete sink and input: the infallible in-memory
sink succeeds on input `a`. -/
theorem C9_fail_only_on_sink_failure_witness :
    (escapeSink listSink ['a'] '\'' []).isSome :=
  C9_fail_only_on_sink_failure.1 (List Char) listSink ['a'] '\'' []
    (fun _ _ => rfl) (fun _ _ => rfl)

/-- C10: `push_unseparated` never changes the separator-pending flag (or
the separator), only appends its fragment; so after a `push_unseparated`
on a fresh view, the next `push` or `push_bind` is still treated as the
first separated item and emits no separator. -/
theorem C10_push_unseparated_frame :
    (∀ (s : Separated) (f : List Char),
      (s.push_unseparated f).push_separator = s.push_separator ∧
      (s.push_unseparated f).separator = s.separator ∧
      (s.push_unseparated f).qb.query = s.qb.query ++ f) ∧
    (∀ (qb : QueryBuilder) (sep f g : List Char),
      (((Separated.new qb sep).push_unseparated f).push g).qb.query
        = qb.query ++ f ++ g) ∧
    (∀ (qb : QueryBuilder) (sep f : List Char) (v : SqlLiteral),
      (((Separated.new qb sep).push_unseparated f).push_bind v).qb.query
        = qb.query ++ f ++ SqlLiteral.fmt v) := by
  refine ⟨?_, ?_, ?_⟩
  · intro s f
    refine ⟨rfl, rfl, rfl⟩
  · intro qb sep f g
    simp [Separated.new, Separated.push_unseparated, Separated.push,
      QueryBuilder.push]
  · intro qb sep f v
    simp [Separated.new, Separated.push_unseparated, Separated.push_bind,
      QueryBuilder.push, QueryBuilder.push_bind]

end ClickhouseSql
